import Mathlib

/-!
Verification development for the table-annotation inference script
(`src/auto.py`, active code: function `annotate_remaining_cells` plus its
inner helper `group_into_rows`).

The Python code is shallowly embedded here:
* normalized coordinates (Python floats holding short decimal literals) are
  modelled as exact rationals `ℚ`;
* the raw input string is modelled as its character list `List Char`;
* Python's insertion-ordered `defaultdict(list)` is modelled as an
  association list `List (Int × List Box)` in insertion order;
* Python's stable `sorted(..., key=...)` is modelled by the stable
  `List.mergeSort` with the corresponding boolean key comparison;
* the unbounded `while True:` generation loop is modelled with explicit
  fuel: `generate_rows fuel ...` returns the emitted rows together with a
  flag that is `true` exactly when the loop reached its `break` within
  `fuel` iterations;
* uncaught Python exceptions (`ValueError` from `int`/`float`, the
  explicit `raise ValueError(...)` calls, and `min`/`max` on an empty
  sequence) are modelled by an `Except Err` result.
-/

/-- A labelImg bounding box `(x_center, y_center, width, height)`,
from the 4-tuples `coords = tuple(float(p) for p in parts[1:])`. -/
structure Box where
  x : ℚ
  y : ℚ
  w : ℚ
  h : ℚ
  deriving DecidableEq, Repr

/-- The uncaught exceptions the script can raise, plus fuel exhaustion of
the modelled `while True:` loop (which in Python would be divergence). -/
inductive Err where
  /-- `ValueError` raised by `int(...)` or `float(...)` on a malformed field. -/
  | convError : Err
  /-- `raise ValueError("No valid annotations found")`. -/
  | noValid : Err
  /-- `raise ValueError("Need at least two complete rows to detect pattern")`. -/
  | needTwoRows : Err
  /-- `ValueError` from `min`/`max` applied to an empty sequence while
  estimating table bounds. -/
  | minEmpty : Err
  /-- The generation loop did not reach `break` within the given fuel. -/
  | fuelOut : Err
  deriving DecidableEq, Repr

/-- Whitespace characters relevant inside one input line
(Python `str.split()` splits on runs of these). -/
def isSpaceChar (c : Char) : Bool :=
  c = ' ' || c = '\t' || c = '\r' || c = '\x0b' || c = '\x0c'

/-- Helper for `splitFields`: accumulates the current field (reversed). -/
def splitFieldsAux (acc : List Char) : List Char → List (List Char)
  | [] => if acc.isEmpty then [] else [acc.reverse]
  | c :: cs =>
    if isSpaceChar c then
      if acc.isEmpty then splitFieldsAux [] cs
      else acc.reverse :: splitFieldsAux [] cs
    else splitFieldsAux (c :: acc) cs

/-- Python `line.split()`: split on whitespace runs, no empty fields. -/
def splitFields (cs : List Char) : List (List Char) :=
  splitFieldsAux [] cs

/-- Helper for `splitNewlines`: accumulates the current line (reversed). -/
def splitNewlinesAux (acc : List Char) : List Char → List (List Char)
  | [] => [acc.reverse]
  | c :: cs =>
    if c = '\n' then acc.reverse :: splitNewlinesAux [] cs
    else splitNewlinesAux (c :: acc) cs

/-- Python `raw_data.split('\n')` (empty segments kept; they yield zero
fields below and are then skipped, so the `strip()` calls of line 152 of
the source, which only discard such blank lines, need no separate model). -/
def splitNewlines (cs : List Char) : List (List Char) :=
  splitNewlinesAux [] cs

/-- Lines of the raw input, each as its whitespace-separated fields:
models lines 152–155 of the source. -/
def lineFields (raw : List Char) : List (List (List Char)) :=
  (splitNewlines raw).map splitFields

/-- Value of a digit string (most significant first). -/
def digitsVal (cs : List Char) : Nat :=
  cs.foldl (fun a c => 10 * a + (c.toNat - 48)) 0

/-- Python `int(field)` on a whitespace-free field: an optional sign
followed by one or more digits; anything else raises (`none`). -/
def pyInt : List Char → Option Int
  | '+' :: rest =>
    if rest ≠ [] ∧ rest.all Char.isDigit then some (digitsVal rest : Int) else none
  | '-' :: rest =>
    if rest ≠ [] ∧ rest.all Char.isDigit then some (-(digitsVal rest : Int)) else none
  | cs =>
    if cs ≠ [] ∧ cs.all Char.isDigit then some (digitsVal cs : Int) else none

/-- Unsigned part of Python `float(field)`: digits with an optional
decimal point, at least one digit overall (the exponent and `inf`/`nan`
forms, unused by the annotation format, are not modelled). -/
def pyFloatCore (cs : List Char) : Option ℚ :=
  let ip := cs.takeWhile Char.isDigit
  let rest := cs.dropWhile Char.isDigit
  match rest with
  | [] => if ip ≠ [] then some (digitsVal ip : ℚ) else none
  | '.' :: frac =>
    if frac.all Char.isDigit ∧ (ip ≠ [] ∨ frac ≠ []) then
      some ((digitsVal ip : ℚ) + (digitsVal frac : ℚ) / (10 : ℚ) ^ frac.length)
    else none
  | _ => none

/-- Python `float(field)` on a whitespace-free field: optional sign, then
a decimal literal; anything else raises (`none`). -/
def pyFloat : List Char → Option ℚ
  | '+' :: rest => pyFloatCore rest
  | '-' :: rest => (pyFloatCore rest).map Neg.neg
  | cs => pyFloatCore cs

/-- One parsed line (source lines 154–160): fewer or more than 5 fields →
silently skipped (`ok none`); otherwise `int` and four `float`
conversions, any failure raising `ValueError` (`error convError`). -/
def parseLine (fs : List (List Char)) : Except Err (Option (Int × Box)) :=
  if fs.length ≠ 5 then .ok none
  else
    match fs with
    | [f0, f1, f2, f3, f4] =>
      match pyInt f0 with
      | none => .error .convError
      | some cid =>
        match pyFloat f1, pyFloat f2, pyFloat f3, pyFloat f4 with
        | some x, some y, some w, some h => .ok (some (cid, ⟨x, y, w, h⟩))
        | _, _, _, _ => .error .convError
    | _ => .ok none

/-- `annotations[class_id].append(coords)` on an insertion-ordered
`defaultdict(list)`. -/
def addAnn (anns : List (Int × List Box)) (cid : Int) (b : Box) :
    List (Int × List Box) :=
  match anns with
  | [] => [(cid, [b])]
  | (k, bs) :: rest =>
    if k = cid then (k, bs ++ [b]) :: rest else (k, bs) :: addAnn rest cid b

/-- The parsing loop of source lines 151–160, threading the accumulated
annotation mapping. -/
def parseAnnsAux (anns : List (Int × List Box)) :
    List (List (List Char)) → Except Err (List (Int × List Box))
  | [] => .ok anns
  | fs :: rest =>
    match parseLine fs with
    | .error e => .error e
    | .ok none => parseAnnsAux anns rest
    | .ok (some (cid, b)) => parseAnnsAux (addAnn anns cid b) rest

/-- `all_boxes = [box for boxes in annotations.values() for box in boxes]`
(source line 164). -/
def allBoxesOf (anns : List (Int × List Box)) : List Box :=
  (anns.map Prod.snd).flatten

/-- Box area `b[2]*b[3]` as used by the classifier's `max` key. -/
def area (b : Box) : ℚ := b.w * b.h

/-- Python `max(boxes, key=lambda b: b[2]*b[3])` on a nonempty list:
keeps the earliest box, replacing it only on a strictly larger key. -/
def pyMaxArea : List Box → Option Box
  | [] => none
  | b :: bs => some (bs.foldl (fun acc c => if area acc < area c then c else acc) b)

/-- `table_box = max(all_boxes, key=...) if len(all_boxes) > 1 else None`
(source line 170). -/
def tableBoxOf (anns : List (Int × List Box)) : Option Box :=
  let all := allBoxesOf anns
  if 1 < all.length then pyMaxArea all else none

/-- Body of the header/data loop (source lines 179–185), acting on the
state `(header_cells, data_cells)`: skip the table box; the very first
remaining box seeds `header_cells`; afterwards a box joins `header_cells`
exactly when its `y_center` is strictly below that of `header_cells[0]`. -/
def classifyStep (tb : Option Box) (st : List Box × List Box) (b : Box) :
    List Box × List Box :=
  if some b = tb then st
  else
    match st.1 with
    | [] => ([b], st.2)
    | h0 :: _ => if b.y < h0.y then (st.1 ++ [b], st.2) else (st.1, st.2 ++ [b])

/-- The header/data classification loop of source lines 176–185: iterate
over the classes in insertion order, skipping class `-1`, and over each
class's boxes in order. Returns `(header_cells, data_cells)`. -/
def splitHD (tb : Option Box) (anns : List (Int × List Box)) :
    List Box × List Box :=
  anns.foldl
    (fun st p => if p.1 = -1 then st else p.2.foldl (classifyStep tb) st)
    ([], [])

/-- Table-bound estimation of source lines 188–200, used when
`table_box` is `None`: centers at the midpoints of the extreme cell
centers, extent from the extreme centers padded by the extreme
half-width/half-height. Python's `min`/`max` raise on an empty sequence. -/
def synthTable (cells : List Box) : Except Err Box :=
  match cells with
  | [] => .error .minEmpty
  | c :: cs =>
    let xmin := cs.foldl (fun a b => min a b.x) c.x
    let xmax := cs.foldl (fun a b => max a b.x) c.x
    let ymin := cs.foldl (fun a b => min a b.y) c.y
    let ymax := cs.foldl (fun a b => max a b.y) c.y
    let wmin := cs.foldl (fun a b => min a b.w) c.w
    let wmax := cs.foldl (fun a b => max a b.w) c.w
    let hmin := cs.foldl (fun a b => min a b.h) c.h
    let hmax := cs.foldl (fun a b => max a b.h) c.h
    .ok
      { x := (xmin + xmax) / 2
        y := (ymin + ymax) / 2
        w := xmax + wmax / 2 - (xmin - wmin / 2)
        h := ymax + hmax / 2 - (ymin - hmin / 2) }

/-- Boolean comparison for Python `sorted(cells, key=lambda c: (c[1], c[0]))`:
lexicographic on `(y_center, x_center)`. -/
def leYX (a b : Box) : Bool :=
  decide (a.y < b.y ∨ (a.y = b.y ∧ a.x ≤ b.x))

/-- Boolean comparison for Python `sorted(row, key=lambda c: c[0])`. -/
def leX (a b : Box) : Bool :=
  decide (a.x ≤ b.x)

/-- Python's stable `sorted(cells, key=lambda c: (c[1], c[0]))`, modelled
by the stable `List.mergeSort`. -/
def sortYX (cells : List Box) : List Box :=
  cells.mergeSort leYX

/-- Python's stable `sorted(row, key=lambda c: c[0])`. -/
def sortX (row : List Box) : List Box :=
  row.mergeSort leX

/-- The row-building loop of `group_into_rows` (source lines 210–221):
`cur` is the in-order `current_row` (nonempty at every call site), and a
box extends it exactly when `abs(cell[1] - current_row[-1][1])` is
strictly below the tolerance; completed rows are sorted by `x_center`. -/
def groupAux (tol : ℚ) : List Box → List Box → List (List Box)
  | cur, [] => [sortX cur]
  | cur, c :: cs =>
    if |c.y - (cur.getLastD c).y| < tol then groupAux tol (cur ++ [c]) cs
    else sortX cur :: groupAux tol ([c]) cs

/-- `group_into_rows(cells, y_tolerance)` (source lines 203–223). -/
def group_into_rows (tol : ℚ) (cells : List Box) : List (List Box) :=
  match sortYX cells with
  | [] => []
  | c :: cs => groupAux tol [c] cs

/-- The candidate built from a template row (source lines 239–242):
add the pitch to each cell's `y_center`, keep `x_center`, width, height. -/
def shiftRow (p : ℚ) (row : List Box) : List Box :=
  row.map fun c => ⟨c.x, c.y + p, c.w, c.h⟩

/-- Bottom edge of a row's representative cell, `row[0][1] + row[0][3]/2`
(source line 245); rows are nonempty at every call site, so the default
box is never consulted there. -/
def rowBottom (row : List Box) : ℚ :=
  (row.headD ⟨0, 0, 0, 0⟩).y + (row.headD ⟨0, 0, 0, 0⟩).h / 2

/-- The `while True:` generation loop (source lines 238–249), with
explicit fuel. Each fuel unit is one loop iteration: build the shifted
candidate; if its representative bottom edge reaches the table bottom,
`break` (flag `true`); otherwise emit it and continue from it. Fuel
exhaustion (flag `false`) marks an unfinished — in Python, diverging —
loop. -/
def generate_rows (pitch tableBottom : ℚ) : Nat → List Box → List (List Box) × Bool
  | 0, _ => ([], false)
  | n + 1, lastRow =>
    let nr := shiftRow pitch lastRow
    if tableBottom ≤ rowBottom nr then ([], true)
    else
      let rest := generate_rows pitch tableBottom n nr
      (nr :: rest.1, rest.2)

/-- The post-parse part of `annotate_remaining_cells`
(source lines 162–251). -/
def pipeline (fuel : Nat) (anns : List (Int × List Box)) :
    Except Err (List (List Box)) :=
  let all := allBoxesOf anns
  if all.isEmpty then .error .noValid
  else
    let tb := tableBoxOf anns
    let hd := splitHD tb anns
    let tableExc : Except Err Box :=
      match tb with
      | some t => .ok t
      | none => synthTable (hd.1 ++ hd.2)
    match tableExc with
    | .error e => .error e
    | .ok table =>
      let rows := group_into_rows (1 / 100) hd.2
      if rows.length < 2 then .error .needTwoRows
      else
        let pitch := ((rows.getD 1 []).headD ⟨0, 0, 0, 0⟩).y -
          ((rows.getD 0 []).headD ⟨0, 0, 0, 0⟩).y
        let lastRow := rows.getLastD []
        let tableBottom := table.y + table.h / 2
        match generate_rows pitch tableBottom fuel lastRow with
        | (gen, true) => .ok gen
        | (_, false) => .error .fuelOut

/-- `annotate_remaining_cells(raw_data)` (source lines 140–251), with
explicit fuel for the generation loop. -/
def annotate_remaining_cells (fuel : Nat) (raw : List Char) :
    Except Err (List (List Box)) :=
  match parseAnnsAux [] (lineFields raw) with
  | .error e => .error e
  | .ok anns => pipeline fuel anns

/-! ### Characterization devices used by the theorem statements -/

/-- Strict lexicographic order on the sort key `(y_center, x_center)`. -/
def keyLt (a b : Box) : Prop :=
  a.y < b.y ∨ (a.y = b.y ∧ a.x < b.x)

instance : DecidableRel keyLt := fun a b => by
  unfold keyLt; infer_instance

instance : IsAntisymm Box keyLt where
  antisymm a b h1 h2 := by
    exfalso
    rcases h1 with h1 | ⟨he1, h1⟩ <;> rcases h2 with h2 | ⟨he2, h2⟩ <;> linarith

/-- Two boxes with distinct sort keys `(y_center, x_center)`. -/
def keyNe (a b : Box) : Prop :=
  a.y ≠ b.y ∨ a.x ≠ b.x

/-- The non-table boxes the header/data loop actually inspects, in
iteration order: classes in insertion order with class `-1` dropped,
their boxes concatenated, boxes equal to the table box dropped. -/
def candBoxes (tb : Option Box) (anns : List (Int × List Box)) : List Box :=
  (((anns.filter fun p => decide (p.1 ≠ -1)).map Prod.snd).flatten).filter
    fun b => decide (some b ≠ tb)

/-- Declarative counterpart of `groupAux` that only chunks, without the
per-row `x_center` sort: a box extends the current chunk exactly when its
`y_center` is within the tolerance of the chunk's last box. -/
def chunkAux (tol : ℚ) : List Box → List Box → List (List Box)
  | cur, [] => [cur]
  | cur, c :: cs =>
    if |c.y - (cur.getLastD c).y| < tol then chunkAux tol (cur ++ [c]) cs
    else cur :: chunkAux tol ([c]) cs

/-- The chunks of a (sorted) cell sequence: maximal runs in which each box's
`y_center` is strictly within the tolerance of its predecessor's. -/
def chunkRows (tol : ℚ) : List Box → List (List Box)
  | [] => []
  | c :: cs => chunkAux tol [c] cs

/-- Total area of a class's boxes, from the spec's table-selection policy. -/
def totalArea (bs : List Box) : ℚ :=
  (bs.map area).sum

/-- Modelled from the spec: the table-selection policy the specification
describes ("among classes with at most two boxes ... pick the one with
maximum total area"), written only for comparison with the source's
`tableBoxOf`. Returns the chosen class identifier, or `none` when no
class has at most two boxes. -/
def specTableClass (anns : List (Int × List Box)) : Option Int :=
  match anns.filter (fun p => p.2.length ≤ 2) with
  | [] => none
  | q :: qs =>
    some (qs.foldl (fun acc p => if totalArea acc.2 < totalArea p.2 then p else acc) q).1

/-! ### Concrete inputs for the counterexamples and witnesses -/

/-- A raw input whose boxes all carry class identifier `0`: one large
table box, one top band cell, and four cells forming two data rows. -/
def raw4 : List Char :=
  ("0 0.5 0.5 0.9 0.9\n" ++
   "0 0.1 0.1 0.1 0.1\n" ++
   "0 0.2 0.3 0.1 0.1\n" ++
   "0 0.5 0.3 0.1 0.1\n" ++
   "0 0.2 0.4 0.1 0.1\n" ++
   "0 0.5 0.4 0.1 0.1").data

/-- Annotation set for the table-selection counterexample: class `0` has
two boxes of area `3/10` each (total `3/5`), class `1` has three boxes
whose largest has area `2/5`. -/
def anns2 : List (Int × List Box) :=
  [(0, [⟨1/10, 1/10, 1/2, 3/5⟩, ⟨1/10, 3/10, 1/2, 3/5⟩]),
   (1, [⟨1/2, 1/2, 4/5, 1/2⟩, ⟨1/5, 1/5, 1/10, 1/10⟩, ⟨3/10, 3/10, 1/10, 1/10⟩])]

/-- Annotation set for the header-selection counterexample: class `9` is
the table (area `81/100`), class `5` has one box at `y_center = 1/2`,
class `7` has one box at `y_center = 1/5` (the topmost band). -/
def anns3 : List (Int × List Box) :=
  [(9, [⟨1/2, 1/2, 9/10, 9/10⟩]),
   (5, [⟨1/5, 1/2, 1/10, 1/10⟩]),
   (7, [⟨1/5, 1/5, 1/10, 1/10⟩])]

/-! ### Helper lemmas about the row generator -/

theorem shiftRow_ne_nil {p : ℚ} {t : List Box} (h : t ≠ []) : shiftRow p t ≠ [] := by
  cases t with
  | nil => exact absurd rfl h
  | cons c cs => simp [shiftRow]

theorem rowBottom_shiftRow {p : ℚ} {t : List Box} (h : t ≠ []) :
    rowBottom (shiftRow p t) = rowBottom t + p := by
  cases t with
  | nil => exact absurd rfl h
  | cons c cs => simp [rowBottom, shiftRow]; ring

theorem shiftRow_shiftRow (p q : ℚ) (t : List Box) :
    shiftRow p (shiftRow q t) = shiftRow (q + p) t := by
  induction t with
  | nil => rfl
  | cons c cs ih =>
    simp only [shiftRow, List.map_cons, List.map_map] at ih ⊢
    refine List.cons_eq_cons.mpr ⟨?_, ih⟩
    simp [add_assoc]

theorem generate_rows_done (p B : ℚ) :
    ∀ (n : Nat) (t : List Box), t ≠ [] → B ≤ rowBottom t + ((n : ℚ) + 1) * p →
      (generate_rows p B (n + 1) t).2 = true := by
  intro n
  induction n with
  | zero =>
    intro t ht hB
    rw [generate_rows]
    rw [if_pos]
    rw [rowBottom_shiftRow ht]
    simpa using hB
  | succ n ih =>
    intro t ht hB
    rw [generate_rows]
    by_cases hc : B ≤ rowBottom (shiftRow p t)
    · rw [if_pos hc]
    · rw [if_neg hc]
      simp only
      refine ih (shiftRow p t) (shiftRow_ne_nil ht) ?_
      rw [rowBottom_shiftRow ht]
      push_cast at hB ⊢
      linarith

theorem generate_rows_getElem (p B : ℚ) :
    ∀ (n : Nat) (t : List Box) (i : Nat),
      i < ((generate_rows p B n t).1).length →
      ((generate_rows p B n t).1)[i]? = some (shiftRow (((i : ℚ) + 1) * p) t) := by
  intro n
  induction n with
  | zero => intro t i hi; simp [generate_rows] at hi
  | succ n ih =>
    intro t i hi
    rw [generate_rows] at hi ⊢
    by_cases hc : B ≤ rowBottom (shiftRow p t)
    · rw [if_pos hc] at hi; simp at hi
    · rw [if_neg hc] at hi ⊢
      simp only at hi ⊢
      match i with
      | 0 =>
        simp only [List.getElem?_cons_zero, Option.some.injEq]
        norm_num
      | Nat.succ j =>
        simp only [List.getElem?_cons_succ]
        simp only [List.length_cons, Nat.succ_lt_succ_iff] at hi
        rw [ih (shiftRow p t) j hi, shiftRow_shiftRow]
        push_cast
        ring_nf

/-! ### Claims about the row generator -/

/-- C1: the claim states that a non-positive pitch makes the row generator
terminate immediately with zero generated rows. The source's `while True:`
loop (lines 238–249) has no such guard: with `pitch = 0` and a template row
strictly above the table bottom, no amount of fuel ever reaches the
`break`, i.e. the Python loop diverges instead of stopping with zero rows.
Here the template's representative bottom edge is `0` and the table bottom
is `1`. -/
theorem c1_nonpositive_pitch_diverges (n : Nat) :
    (generate_rows 0 1 n [⟨0, 0, 0, 0⟩]).2 = false := by
  induction n with
  | zero => rfl
  | succ n ih =>
    rw [generate_rows]
    have hs : shiftRow 0 [(⟨0, 0, 0, 0⟩ : Box)] = [⟨0, 0, 0, 0⟩] := by
      simp [shiftRow]
    rw [hs]
    rw [if_neg (by norm_num [rowBottom])]
    simpa using ih

/-- C7 counterexample: the claim bounds the number of loop iterations by
`ceil(table_height / pitch)` for every positive pitch. Take pitch `1/10`,
a table of height `1/5` with bottom edge `3/5` (table `y_center = 1/2`),
and a template row whose single cell sits at `y_center = 1/10` with height
`0` — above the table. Then `ceil((1/5)/(1/10)) = 2`, yet after `2`
iterations the loop has not reached its `break` (the flag is `false`):
it needs `5` iterations. -/
theorem c7_counterexample :
    (0 : ℚ) < 1 / 10 ∧ Nat.ceil ((1 / 5 : ℚ) / (1 / 10)) = 2 ∧
      (generate_rows (1 / 10) (3 / 5) 2 [⟨1 / 2, 1 / 10, 1 / 10, 0⟩]).2 = false :=
  ⟨by norm_num, by norm_num, by with_unfolding_all rfl⟩

/-- C7 amended: for positive pitch, positive table height, a nonempty
template row, and a template whose representative bottom edge is not above
the table's top edge (`table_bottom - table_height`), the generation loop
reaches its `break` within `ceil(table_height / pitch)` iterations — with
fuel `ceil(table_height / pitch)` the loop terminates. -/
theorem c7_amended (p B H : ℚ) (t : List Box) (hp : 0 < p) (hH : 0 < H)
    (ht : t ≠ []) (hb : B - H ≤ rowBottom t) :
    (generate_rows p B (Nat.ceil (H / p)) t).2 = true := by
  have hm : 0 < Nat.ceil (H / p) := Nat.ceil_pos.mpr (div_pos hH hp)
  obtain ⟨k, hk⟩ : ∃ k, Nat.ceil (H / p) = k + 1 := ⟨Nat.ceil (H / p) - 1, by omega⟩
  rw [hk]
  refine generate_rows_done p B k t ht ?_
  have h1 : H / p ≤ (Nat.ceil (H / p) : ℚ) := Nat.le_ceil _
  have h2 : ((k : ℚ) + 1) = (Nat.ceil (H / p) : ℚ) := by
    rw [hk]; push_cast; ring
  have h3 : H ≤ ((k : ℚ) + 1) * p := by
    rw [h2]
    calc H = H / p * p := by field_simp
    _ ≤ (Nat.ceil (H / p) : ℚ) * p := by
        exact mul_le_mul_of_nonneg_right h1 hp.le
  linarith

/-- C7 amended, witness: pitch `1/10`, table bottom `3/5`, height `1/5`,
template cell bottom `43/100` (inside the table). -/
theorem c7_witness :
    (generate_rows (1 / 10) (3 / 5) (Nat.ceil ((1 / 5 : ℚ) / (1 / 10)))
      [⟨1 / 2, 21 / 50, 1 / 10, 1 / 50⟩]).2 = true :=
  c7_amended (1 / 10) (3 / 5) (1 / 5) [⟨1 / 2, 21 / 50, 1 / 10, 1 / 50⟩]
    (by norm_num) (by norm_num) (by simp) (by norm_num [rowBottom])

/-- C8: every row the generation loop emits has its representative bottom
edge (`row[0][1] + row[0][3]/2`) strictly below the table bottom; a
candidate whose bottom edge reaches the table bottom — equality included —
triggers `break` and is discarded, never emitted. -/
theorem c8_emitted_rows_inside (p B : ℚ) (n : Nat) (t : List Box) :
    ∀ r ∈ (generate_rows p B n t).1, rowBottom r < B := by
  induction n generalizing t with
  | zero => intro r hr; simp [generate_rows] at hr
  | succ n ih =>
    intro r hr
    rw [generate_rows] at hr
    by_cases hc : B ≤ rowBottom (shiftRow p t)
    · rw [if_pos hc] at hr; simp at hr
    · rw [if_neg hc] at hr
      simp only [List.mem_cons] at hr
      rcases hr with rfl | hr
      · exact lt_of_not_le hc
      · exact ih (shiftRow p t) r hr

/-- C8 witness: with pitch `1/10`, table bottom `1`, fuel `5`, template
`[(0,0,0,0)]`, the row at `y_center = 1/10` is emitted and its bottom edge
is below `1`. -/
theorem c8_witness :
    rowBottom [⟨0, 1 / 10, 0, 0⟩] < 1 :=
  c8_emitted_rows_inside (1 / 10) 1 5 [⟨0, 0, 0, 0⟩] [⟨0, 1 / 10, 0, 0⟩]
    (of_decide_eq_true (by with_unfolding_all rfl))

/-- C9: the `i`-th emitted row is the template shifted by `(i+1)·pitch` in
`y_center` only; hence it has the template's cell count and horizontal
layout (`x_center`, width, height per cell), and the `y_center`s of
successive rows move by exactly `pitch` per step — monotonically in the
pitch's sign direction. -/
theorem c9_generated_row_structure (p B : ℚ) (n : Nat) (t : List Box) (i : Nat)
    (h : i < ((generate_rows p B n t).1).length) :
    ((generate_rows p B n t).1)[i]? = some (shiftRow (((i : ℚ) + 1) * p) t)
    ∧ (((generate_rows p B n t).1).getD i []).length = t.length
    ∧ (((generate_rows p B n t).1).getD i []).map (fun c => (c.x, c.w, c.h)) =
        t.map (fun c => (c.x, c.w, c.h))
    ∧ (((generate_rows p B n t).1).getD i []).map (fun c => c.y) =
        t.map (fun c => c.y + ((i : ℚ) + 1) * p) := by
  have hg := generate_rows_getElem p B n t i h
  have hD : ((generate_rows p B n t).1).getD i [] = shiftRow (((i : ℚ) + 1) * p) t := by
    rw [List.getD_eq_getElem?_getD, hg]; rfl
  refine ⟨hg, ?_, ?_, ?_⟩
  · rw [hD]; simp [shiftRow]
  · rw [hD]; simp [shiftRow, List.map_map]
  · rw [hD]; simp [shiftRow, List.map_map]

/-- C9 witness at pitch `1/10`, fuel `2`, index `1`. -/
theorem c9_witness :
    ((generate_rows (1 / 10) 1 2 [⟨0, 0, 0, 0⟩]).1)[1]? =
      some (shiftRow ((((1 : Nat) : ℚ) + 1) * (1 / 10)) [⟨0, 0, 0, 0⟩])
    ∧ (((generate_rows (1 / 10) 1 2 [⟨0, 0, 0, 0⟩]).1).getD 1 []).length =
        ([⟨0, 0, 0, 0⟩] : List Box).length
    ∧ (((generate_rows (1 / 10) 1 2 [⟨0, 0, 0, 0⟩]).1).getD 1 []).map
        (fun c => (c.x, c.w, c.h)) =
        ([⟨0, 0, 0, 0⟩] : List Box).map (fun c => (c.x, c.w, c.h))
    ∧ (((generate_rows (1 / 10) 1 2 [⟨0, 0, 0, 0⟩]).1).getD 1 []).map
        (fun c => c.y) =
        ([⟨0, 0, 0, 0⟩] : List Box).map (fun c => c.y + (((1 : Nat) : ℚ) + 1) * (1 / 10)) :=
  c9_generated_row_structure (1 / 10) 1 2 [⟨0, 0, 0, 0⟩] 1
    (of_decide_eq_true (by with_unfolding_all rfl))

/-! ### Helper lemmas about the classifier -/

theorem foldl_area_mem (bs : List Box) (b : Box) :
    bs.foldl (fun acc c => if area acc < area c then c else acc) b ∈ b :: bs := by
  induction bs generalizing b with
  | nil => simp
  | cons c cs ih =>
    simp only [List.foldl_cons]
    by_cases hc : area b < area c
    · rw [if_pos hc]
      rcases List.mem_cons.mp (ih c) with h | h
      · simp [h]
      · simp [List.mem_cons, h]
    · rw [if_neg hc]
      rcases List.mem_cons.mp (ih b) with h | h
      · simp [h]
      · simp [List.mem_cons, h]

theorem foldl_area_maximal (bs : List Box) (b : Box) :
    ∀ x ∈ b :: bs, area x ≤ area (bs.foldl (fun acc c => if area acc < area c then c else acc) b) := by
  induction bs generalizing b with
  | nil => intro x hx; simp at hx; simp [hx]
  | cons c cs ih =>
    intro x hx
    simp only [List.foldl_cons]
    have hstep : area b ≤ area (if area b < area c then c else b) ∧
        area c ≤ area (if area b < area c then c else b) := by
      by_cases hc : area b < area c
      · rw [if_pos hc]; exact ⟨le_of_lt hc, le_refl _⟩
      · rw [if_neg hc]; exact ⟨le_refl _, le_of_not_lt hc⟩
    have hrec := ih (if area b < area c then c else b)
    rcases List.mem_cons.mp hx with rfl | hx
    · exact le_trans hstep.1 (hrec _ (List.mem_cons_self _ _))
    · rcases List.mem_cons.mp hx with rfl | hx
      · exact le_trans hstep.2 (hrec _ (List.mem_cons_self _ _))
      · exact hrec x (List.mem_cons_of_mem _ hx)

theorem pyMaxArea_spec (l : List Box) (t : Box) (h : pyMaxArea l = some t) :
    t ∈ l ∧ ∀ b ∈ l, area b ≤ area t := by
  cases l with
  | nil => simp [pyMaxArea] at h
  | cons b bs =>
    simp only [pyMaxArea, Option.some.injEq] at h
    subst h
    exact ⟨foldl_area_mem bs b, foldl_area_maximal bs b⟩

/-! ### Claims about table selection (C2) -/

/-- C2 counterexample: in `anns2`, class `0` has two boxes (so it
qualifies under the claim's "at most two boxes" rule) with the maximum
total area `3/5`, while class `1` has three boxes. The claim therefore
selects class `0` as the table (`specTableClass`, the spec's policy,
returns `0`); but the code's `tableBoxOf` unconditionally picks the single
largest-area box, which is a box of class `1` and not among class `0`'s
boxes. -/
theorem c2_counterexample :
    tableBoxOf anns2 = some ⟨1/2, 1/2, 4/5, 1/2⟩
    ∧ specTableClass anns2 = some 0
    ∧ (⟨1/2, 1/2, 4/5, 1/2⟩ : Box) ∉
        [(⟨1/10, 1/10, 1/2, 3/5⟩ : Box), ⟨1/10, 3/10, 1/2, 3/5⟩]
    ∧ ((anns2.getD 0 (0, [])).2.length ≤ 2) :=
  ⟨by with_unfolding_all rfl, by with_unfolding_all rfl,
   of_decide_eq_true (by with_unfolding_all rfl), of_decide_eq_true (by with_unfolding_all rfl)⟩

/-- C2 amended: the classifier ignores per-class box counts entirely.
Whenever the parsed input has more than one box, the table marker is the
single largest-area box across all boxes (it belongs to the box population
and its area dominates every box's); with at most one box, no table box is
selected (one is synthesized later). -/
theorem c2_amended (anns : List (Int × List Box)) :
    (∀ t, tableBoxOf anns = some t →
      t ∈ allBoxesOf anns ∧ ∀ b ∈ allBoxesOf anns, area b ≤ area t)
    ∧ (tableBoxOf anns = none ↔ (allBoxesOf anns).length ≤ 1) := by
  constructor
  · intro t ht
    rw [tableBoxOf] at ht
    by_cases hl : 1 < (allBoxesOf anns).length
    · rw [if_pos hl] at ht
      exact pyMaxArea_spec _ _ ht
    · rw [if_neg hl] at ht
      exact absurd ht (by simp)
  · rw [tableBoxOf]
    by_cases hl : 1 < (allBoxesOf anns).length
    · rw [if_pos hl]
      constructor
      · intro h
        cases hall : allBoxesOf anns with
        | nil => rw [hall] at hl; simp at hl
        | cons b bs => rw [hall] at h; simp [pyMaxArea] at h
      · intro h; omega
    · rw [if_neg hl]
      simp; omega

/-- C2 amended, witness: in `anns2` the chosen table box is a member of
the box population and its area dominates every box's area. -/
theorem c2_witness :
    (⟨1/2, 1/2, 4/5, 1/2⟩ : Box) ∈ allBoxesOf anns2
    ∧ ∀ b ∈ allBoxesOf anns2, area b ≤ area (⟨1/2, 1/2, 4/5, 1/2⟩ : Box) :=
  (c2_amended anns2).1 ⟨1/2, 1/2, 4/5, 1/2⟩ (by with_unfolding_all rfl)

/-! ### Claims about header/data selection (C3) -/

theorem foldl_classifyStep_filter (tb : Option Box) (bs : List Box) :
    ∀ st : List Box × List Box,
      bs.foldl (classifyStep tb) st =
        (bs.filter fun b => decide (some b ≠ tb)).foldl (classifyStep none) st := by
  induction bs with
  | nil => intro st; rfl
  | cons b bs ih =>
    intro st
    by_cases hb : some b = tb
    · have h1 : classifyStep tb st b = st := by rw [classifyStep, if_pos hb]
      simp only [List.foldl_cons, List.filter_cons, hb]
      simp only [h1, ih st, decide_not]
      simp
    · have h1 : classifyStep tb st b = classifyStep none st b := by
        rw [classifyStep, if_neg hb, classifyStep, if_neg (by simp)]
      have hd : (decide (some b ≠ tb)) = true := by simpa using hb
      rw [List.foldl_cons, ih, List.filter_cons, hd]
      simp [h1]

theorem candBoxes_cons (tb : Option Box) (p : Int × List Box)
    (anns : List (Int × List Box)) :
    candBoxes tb (p :: anns) =
      (if p.1 = -1 then []
       else p.2.filter fun b => decide (some b ≠ tb)) ++ candBoxes tb anns := by
  by_cases hp : p.1 = -1
  · simp [candBoxes, List.filter_cons, hp]
  · simp only [candBoxes, List.filter_cons]
    rw [show (decide (p.1 ≠ -1)) = true by simpa using hp]
    simp [List.filter_append, hp]

theorem splitHD_eq_foldl_candBoxes (tb : Option Box) (anns : List (Int × List Box)) :
    splitHD tb anns = (candBoxes tb anns).foldl (classifyStep none) ([], []) := by
  rw [splitHD]
  generalize hst : (([], []) : List Box × List Box) = st
  clear hst
  induction anns generalizing st with
  | nil => rfl
  | cons p anns ih =>
    rw [candBoxes_cons, List.foldl_append, List.foldl_cons]
    by_cases hp : p.1 = -1
    · rw [if_pos hp, if_pos hp]
      simp only [List.foldl_nil]
      exact ih st
    · rw [if_neg hp, if_neg hp]
      rw [foldl_classifyStep_filter tb p.2 st]
      exact ih _

theorem foldl_classify_anchor (rest : List Box) :
    ∀ (b : Box) (hs d : List Box),
      rest.foldl (classifyStep none) (b :: hs, d) =
        ((b :: hs) ++ rest.filter (fun c => decide (c.y < b.y)),
         d ++ rest.filter (fun c => !decide (c.y < b.y))) := by
  induction rest with
  | nil => intro b hs d; simp
  | cons c cs ih =>
    intro b hs d
    rw [List.foldl_cons]
    have hstep : classifyStep none (b :: hs, d) c =
        if c.y < b.y then (b :: (hs ++ [c]), d) else (b :: hs, d ++ [c]) := by
      by_cases hc : c.y < b.y <;> simp [classifyStep, hc]
    rw [hstep]
    by_cases hc : c.y < b.y
    · rw [if_pos hc, ih]
      simp [List.filter_cons, hc, List.append_assoc]
    · rw [if_neg hc, ih]
      simp [List.filter_cons, hc, List.append_assoc]

/-- C3 counterexample: in `anns3` the table is class `9`'s large box; the
remaining classes are `5` (single box at `y_center = 1/2`) and `7` (single
box at `y_center = 1/5`, the topmost band). The claim says header must be
exactly class `7`'s boxes and data class `5`'s box. The code instead seeds
the header with the first non-table box it meets (class `5`'s) and then
also files class `7`'s box into the header because it lies above that
seed, leaving the data set empty. -/
theorem c3_counterexample :
    splitHD (tableBoxOf anns3) anns3 =
      (([⟨1/5, 1/2, 1/10, 1/10⟩, ⟨1/5, 1/5, 1/10, 1/10⟩] : List Box), ([] : List Box))
    ∧ ((([⟨1/5, 1/2, 1/10, 1/10⟩, ⟨1/5, 1/5, 1/10, 1/10⟩] : List Box), ([] : List Box)) ≠
        (([⟨1/5, 1/5, 1/10, 1/10⟩] : List Box), ([⟨1/5, 1/2, 1/10, 1/10⟩] : List Box))) :=
  ⟨by with_unfolding_all rfl, of_decide_eq_true (by with_unfolding_all rfl)⟩

/-- C3 amended: header/data selection is not class-based. Writing
`candBoxes` for the non-table boxes in iteration order (classes in
insertion order, class `-1` and the table box dropped), the code's
classification anchors on the FIRST such box: that box plus every later
box whose `y_center` is strictly smaller than the anchor's become
`header_cells` (in order), and every other box becomes `data_cells`. -/
theorem c3_amended (tb : Option Box) (anns : List (Int × List Box)) :
    splitHD tb anns =
      match candBoxes tb anns with
      | [] => ([], [])
      | b :: rest =>
        (b :: rest.filter (fun c => decide (c.y < b.y)),
         rest.filter (fun c => !decide (c.y < b.y))) := by
  rw [splitHD_eq_foldl_candBoxes]
  cases hcb : candBoxes tb anns with
  | nil => rfl
  | cons b rest =>
    rw [List.foldl_cons]
    have hfirst : classifyStep none ([], []) b = ([b], []) := by
      rw [classifyStep, if_neg (by simp)]
    rw [hfirst, foldl_classify_anchor rest b [] []]
    simp

/-! ### Claims about row grouping (C6) -/

theorem groupAux_eq_chunkAux (tol : ℚ) (l : List Box) :
    ∀ cur, groupAux tol cur l = (chunkAux tol cur l).map sortX := by
  induction l with
  | nil => intro cur; rfl
  | cons c cs ih =>
    intro cur
    rw [groupAux, chunkAux]
    by_cases hc : |c.y - (cur.getLastD c).y| < tol
    · rw [if_pos hc, if_pos hc]
      exact ih _
    · rw [if_neg hc, if_neg hc, List.map_cons]
      rw [ih]

theorem chunkAux_flatten (tol : ℚ) (l : List Box) :
    ∀ cur, (chunkAux tol cur l).flatten = cur ++ l := by
  induction l with
  | nil => intro cur; simp [chunkAux]
  | cons c cs ih =>
    intro cur
    rw [chunkAux]
    by_cases hc : |c.y - (cur.getLastD c).y| < tol
    · rw [if_pos hc, ih]
      simp
    · rw [if_neg hc, List.flatten_cons, ih]
      simp

theorem leX_trans : ∀ (a b c : Box), leX a b → leX b c → leX a c := by
  intro a b c hab hbc
  simp only [leX, decide_eq_true_eq] at *
  exact le_trans hab hbc

theorem leX_total : ∀ (a b : Box), leX a b || leX b a := by
  intro a b
  simp only [leX, Bool.or_eq_true, decide_eq_true_eq]
  exact le_total a.x b.x

theorem sortX_pairwise (l : List Box) :
    (sortX l).Pairwise (fun a b => a.x ≤ b.x) := by
  have h := List.sorted_mergeSort leX_trans leX_total l
  exact h.imp (by intro a b hab; simpa [leX] using hab)

/-- C6 amended: `group_into_rows` first sorts by the key
`(y_center, x_center)`; on the sorted sequence it starts a new row exactly
when a box's `y_center` differs from the last box added to the current row
by **at least** the tolerance (`abs < tol` keeps the box in the row, so a
difference of exactly the tolerance starts a new row, unlike the claim's
"strictly more than"); each completed row is the `x_center`-sorted current
chunk, and the chunks partition the sorted sequence in order. -/
theorem c6_grouping_structure (tol : ℚ) (cells : List Box) :
    group_into_rows tol cells = (chunkRows tol (sortYX cells)).map sortX
    ∧ (chunkRows tol (sortYX cells)).flatten = sortYX cells
    ∧ ∀ r ∈ group_into_rows tol cells, r.Pairwise (fun a b => a.x ≤ b.x) := by
  have hmain : group_into_rows tol cells = (chunkRows tol (sortYX cells)).map sortX := by
    rw [group_into_rows]
    cases hs : sortYX cells with
    | nil => rfl
    | cons c cs =>
      rw [chunkRows]
      exact groupAux_eq_chunkAux tol cs [c]
  refine ⟨hmain, ?_, ?_⟩
  · cases hs : sortYX cells with
    | nil => rfl
    | cons c cs => rw [chunkRows]; rw [chunkAux_flatten]; rfl
  · intro r hr
    rw [hmain] at hr
    obtain ⟨ch, _, rfl⟩ := List.mem_map.mp hr
    exact sortX_pairwise ch

/-- C6 amended, witness: two boxes whose `y_center`s differ by exactly the
tolerance `1/100` are chunked into two separate rows, each sorted by
`x_center`. -/
theorem c6_witness :
    group_into_rows (1/100) [(⟨1/2, 1/2, 1/10, 1/10⟩ : Box), ⟨1/2, 51/100, 1/10, 1/10⟩] =
      (chunkRows (1/100)
        (sortYX [(⟨1/2, 1/2, 1/10, 1/10⟩ : Box), ⟨1/2, 51/100, 1/10, 1/10⟩])).map sortX
    ∧ ([(⟨1/2, 1/2, 1/10, 1/10⟩ : Box)]).Pairwise (fun a b => a.x ≤ b.x) :=
  ⟨(c6_grouping_structure (1/100) [⟨1/2, 1/2, 1/10, 1/10⟩, ⟨1/2, 51/100, 1/10, 1/10⟩]).1,
   (c6_grouping_structure (1/100) [⟨1/2, 1/2, 1/10, 1/10⟩, ⟨1/2, 51/100, 1/10, 1/10⟩]).2.2
     [⟨1/2, 1/2, 1/10, 1/10⟩] (of_decide_eq_true (by with_unfolding_all rfl))⟩

/-- C6 counterexample: the claim predicts that two consecutive boxes whose
`y_center`s differ by exactly the tolerance `1/100` land in the same row;
the code compares with `< 0.01` and so splits them into two rows. -/
theorem c6_counterexample :
    group_into_rows (1/100) [(⟨1/2, 1/2, 1/10, 1/10⟩ : Box), ⟨1/2, 51/100, 1/10, 1/10⟩] =
      [[⟨1/2, 1/2, 1/10, 1/10⟩], [⟨1/2, 51/100, 1/10, 1/10⟩]]
    ∧ ([[(⟨1/2, 1/2, 1/10, 1/10⟩ : Box)], [⟨1/2, 51/100, 1/10, 1/10⟩]] ≠
        [[(⟨1/2, 1/2, 1/10, 1/10⟩ : Box), ⟨1/2, 51/100, 1/10, 1/10⟩]]) :=
  ⟨by with_unfolding_all rfl, of_decide_eq_true (by with_unfolding_all rfl)⟩

/-! ### Claims about order invariance of row grouping (C5) -/

theorem leYX_trans : ∀ (a b c : Box), leYX a b → leYX b c → leYX a c := by
  intro a b c hab hbc
  simp only [leYX, decide_eq_true_eq] at hab hbc ⊢
  rcases hab with h | ⟨e, h⟩ <;> rcases hbc with h' | ⟨e', h'⟩
  · exact Or.inl (lt_trans h h')
  · exact Or.inl (by rw [← e']; exact h)
  · exact Or.inl (by rw [e]; exact h')
  · exact Or.inr ⟨e.trans e', le_trans h h'⟩

theorem leYX_total : ∀ (a b : Box), leYX a b || leYX b a := by
  intro a b
  simp only [leYX, Bool.or_eq_true, decide_eq_true_eq]
  rcases lt_trichotomy a.y b.y with h | h | h
  · exact Or.inl (Or.inl h)
  · rcases le_total a.x b.x with hx | hx
    · exact Or.inl (Or.inr ⟨h, hx⟩)
    · exact Or.inr (Or.inr ⟨h.symm, hx⟩)
  · exact Or.inr (Or.inl h)

theorem keyNe_symm : Symmetric keyNe := by
  intro a b h
  rcases h with h | h
  · exact Or.inl (Ne.symm h)
  · exact Or.inr (Ne.symm h)

theorem sortYX_sorted_strict (l : List Box) (hd : l.Pairwise keyNe) :
    (sortYX l).Sorted keyLt := by
  have hperm : (sortYX l).Perm l := List.mergeSort_perm l leYX
  have hd1 : (sortYX l).Pairwise keyNe := (hperm.pairwise_iff (fun h => keyNe_symm h)).mpr hd
  have hle : (sortYX l).Pairwise (fun a b => leYX a b = true) := by
    have h := List.sorted_mergeSort leYX_trans leYX_total l
    exact h.imp (by intro a b hab; simpa using hab)
  have hand := hle.and hd1
  refine hand.imp ?_
  intro a b hab
  rcases hab with ⟨hle', hne⟩
  simp only [leYX, decide_eq_true_eq] at hle'
  rcases hle' with h | ⟨e, hx⟩
  · exact Or.inl h
  · rcases hne with hy | hxne
    · exact absurd e hy
    · exact Or.inr ⟨e, lt_of_le_of_ne hx hxne⟩

theorem sortYX_eq_of_perm (l₁ l₂ : List Box) (hp : l₁.Perm l₂)
    (hd : l₁.Pairwise keyNe) : sortYX l₁ = sortYX l₂ := by
  have p1 : (sortYX l₁).Perm l₁ := List.mergeSort_perm l₁ leYX
  have p2 : (sortYX l₂).Perm l₂ := List.mergeSort_perm l₂ leYX
  have s1 := sortYX_sorted_strict l₁ hd
  have s2 := sortYX_sorted_strict l₂ ((hp.pairwise_iff (fun h => keyNe_symm h)).mp hd)
  exact List.eq_of_perm_of_sorted (p1.trans (hp.trans p2.symm)) s1 s2

/-- C5 counterexample: two boxes with identical `(y_center, x_center)` but
different widths. Swapping them in the input swaps them inside the single
produced row (both sorts are stable), so the ordered list of rows differs
between the two permutations of the same multiset of boxes. -/
theorem c5_counterexample :
    ([(⟨1/2, 1/2, 1/10, 1/10⟩ : Box), ⟨1/2, 1/2, 1/5, 1/10⟩].Perm
      [⟨1/2, 1/2, 1/5, 1/10⟩, ⟨1/2, 1/2, 1/10, 1/10⟩])
    ∧ group_into_rows (1/100) [⟨1/2, 1/2, 1/10, 1/10⟩, ⟨1/2, 1/2, 1/5, 1/10⟩] ≠
        group_into_rows (1/100) [⟨1/2, 1/2, 1/5, 1/10⟩, ⟨1/2, 1/2, 1/10, 1/10⟩] :=
  ⟨List.Perm.swap _ _ _, of_decide_eq_true (by with_unfolding_all rfl)⟩

/-- C5 amended: row grouping is invariant under permutations of the input
cell list provided no two cells share the same `(y_center, x_center)` sort
key (with duplicate keys the stable sorts preserve the input order of the
tied cells, so the rows can differ). -/
theorem c5_amended (tol : ℚ) (l₁ l₂ : List Box) (hp : l₁.Perm l₂)
    (hd : l₁.Pairwise keyNe) :
    group_into_rows tol l₁ = group_into_rows tol l₂ := by
  rw [group_into_rows, group_into_rows, sortYX_eq_of_perm l₁ l₂ hp hd]

/-- C5 amended, witness: swapping two boxes with distinct keys leaves the
grouped rows unchanged. -/
theorem c5_witness :
    group_into_rows (1/100) [(⟨1/2, 1/5, 1/10, 1/10⟩ : Box), ⟨1/2, 1/2, 1/10, 1/10⟩] =
      group_into_rows (1/100) [⟨1/2, 1/2, 1/10, 1/10⟩, ⟨1/2, 1/5, 1/10, 1/10⟩] :=
  c5_amended (1/100) _ _ (List.Perm.swap _ _ _)
    (by norm_num [List.pairwise_cons, keyNe])

/-! ### Helper lemmas about parsing and the pipeline -/

theorem parseLine_error (fs : List (List Char)) (e : Err)
    (h : parseLine fs = .error e) : e = .convError := by
  by_cases hl : fs.length ≠ 5
  · rw [parseLine.eq_def, if_pos hl] at h
    exact absurd h (by simp)
  · push_neg at hl
    obtain ⟨f0, f1, f2, f3, f4, rfl⟩ :
        ∃ a b c d e0, fs = [a, b, c, d, e0] := by
      rcases fs with _ | ⟨a, _ | ⟨b, _ | ⟨c, _ | ⟨d, _ | ⟨e0, _ | ⟨f, r⟩⟩⟩⟩⟩⟩ <;>
        first
          | exact ⟨_, _, _, _, _, rfl⟩
          | simp at hl
    cases hint : pyInt f0 with
    | none =>
      simp [parseLine, hint] at h
      first
        | exact h
        | exact h.symm
    | some cid =>
      cases h1 : pyFloat f1 <;> cases h2 : pyFloat f2 <;>
        cases h3 : pyFloat f3 <;> cases h4 : pyFloat f4 <;>
        simp [parseLine, hint, h1, h2, h3, h4] at h <;>
        first
          | exact h
          | exact h.symm

theorem parseAnnsAux_error (anns : List (Int × List Box))
    (ls : List (List (List Char))) (e : Err)
    (h : parseAnnsAux anns ls = .error e) : e = .convError := by
  induction ls generalizing anns with
  | nil => simp [parseAnnsAux] at h
  | cons fs rest ih =>
    rw [parseAnnsAux] at h
    cases hl : parseLine fs with
    | error e0 =>
      rw [hl] at h
      simp only [Except.error.injEq] at h
      rw [← h]
      exact parseLine_error fs e0 hl
    | ok o =>
      rw [hl] at h
      cases o with
      | none => exact ih anns h
      | some p => exact ih _ h

theorem addAnn_snd_ne_nil (anns : List (Int × List Box)) (cid : Int) (b : Box)
    (h : ∀ p ∈ anns, p.2 ≠ []) : ∀ p ∈ addAnn anns cid b, p.2 ≠ [] := by
  induction anns with
  | nil => intro p hp; rw [addAnn] at hp; simp at hp; simp [hp]
  | cons q anns ih =>
    intro p hp
    obtain ⟨k, bs⟩ := q
    rw [addAnn] at hp
    by_cases hk : k = cid
    · rw [if_pos hk] at hp
      rcases List.mem_cons.mp hp with rfl | hp
      · simp
      · exact h p (List.mem_cons_of_mem _ hp)
    · rw [if_neg hk] at hp
      rcases List.mem_cons.mp hp with rfl | hp
      · exact h (k, bs) (List.mem_cons_self _ _)
      · exact ih (fun q hq => h q (List.mem_cons_of_mem _ hq)) p hp

theorem parseAnnsAux_snd_ne_nil (ls : List (List (List Char))) :
    ∀ (anns r : List (Int × List Box)), (∀ p ∈ anns, p.2 ≠ []) →
      parseAnnsAux anns ls = .ok r → ∀ p ∈ r, p.2 ≠ [] := by
  induction ls with
  | nil =>
    intro anns r h hr
    rw [parseAnnsAux] at hr
    simp only [Except.ok.injEq] at hr
    rw [← hr]; exact h
  | cons fs rest ih =>
    intro anns r h hr
    rw [parseAnnsAux] at hr
    cases hl : parseLine fs with
    | error e0 => rw [hl] at hr; exact absurd hr (by simp)
    | ok o =>
      rw [hl] at hr
      cases o with
      | none => exact ih anns r h hr
      | some p => exact ih _ r (addAnn_snd_ne_nil anns p.1 p.2 h) hr

theorem allBoxesOf_eq_nil_iff (anns : List (Int × List Box))
    (h : ∀ p ∈ anns, p.2 ≠ []) : allBoxesOf anns = [] ↔ anns = [] := by
  constructor
  · intro hall
    cases hanns : anns with
    | nil => rfl
    | cons p ps =>
      rw [hanns] at hall
      rw [allBoxesOf] at hall
      rw [List.flatten_eq_nil_iff] at hall
      exact absurd (hall p.2 (by simp)) (h p (by rw [hanns]; exact List.mem_cons_self _ _))
  · intro h0; rw [h0]; rfl

theorem synthTable_error (cells : List Box) (e : Err)
    (h : synthTable cells = .error e) : e = .minEmpty := by
  cases cells with
  | nil => rw [synthTable] at h; simpa using h.symm
  | cons c cs => rw [synthTable] at h; exact absurd h (by simp)

theorem pipeline_noValid_iff (fuel : Nat) (anns : List (Int × List Box)) :
    pipeline fuel anns = .error .noValid ↔ allBoxesOf anns = [] := by
  by_cases hall : (allBoxesOf anns).isEmpty
  · rw [List.isEmpty_iff] at hall
    constructor
    · intro _; exact hall
    · intro _; rw [pipeline]; rw [if_pos (by simpa [List.isEmpty_iff] using hall)]
  · rw [List.isEmpty_iff] at hall
    constructor
    · intro h
      exfalso
      rw [pipeline] at h
      rw [if_neg (by simpa [List.isEmpty_iff] using hall)] at h
      simp only at h
      split at h
      · rename_i e heq
        split at heq
        · exact absurd heq (by simp)
        · rw [synthTable_error _ _ heq] at h
          exact absurd h (by simp)
      · split at h
        · exact absurd h (by simp)
        · split at h
          · exact absurd h (by simp)
          · exact absurd h (by simp)
    · intro h; exact absurd h hall

/-! ### Claims about classification errors (C4) -/

/-- C4 counterexample: `raw4` parses to a single class (`0`), i.e. fewer
than two distinct class identifiers, yet the function raises no
classification error — it completes and returns four generated rows. -/
theorem c4_counterexample :
    parseAnnsAux [] (lineFields raw4) =
      .ok [(0, [⟨1/2, 1/2, 9/10, 9/10⟩, ⟨1/10, 1/10, 1/10, 1/10⟩,
                ⟨1/5, 3/10, 1/10, 1/10⟩, ⟨1/2, 3/10, 1/10, 1/10⟩,
                ⟨1/5, 2/5, 1/10, 1/10⟩, ⟨1/2, 2/5, 1/10, 1/10⟩])]
    ∧ annotate_remaining_cells 9 raw4 =
      .ok [[⟨1/5, 1/2, 1/10, 1/10⟩, ⟨1/2, 1/2, 1/10, 1/10⟩],
           [⟨1/5, 3/5, 1/10, 1/10⟩, ⟨1/2, 3/5, 1/10, 1/10⟩],
           [⟨1/5, 7/10, 1/10, 1/10⟩, ⟨1/2, 7/10, 1/10, 1/10⟩],
           [⟨1/5, 4/5, 1/10, 1/10⟩, ⟨1/2, 4/5, 1/10, 1/10⟩]] :=
  ⟨by with_unfolding_all rfl, by with_unfolding_all rfl⟩

/-- C4 amended: the classification error ("No valid annotations found") is
raised if and only if the parsed annotation set is empty, i.e. the input
has no valid 5-field line. Having fewer than two distinct class
identifiers does not, by itself, raise it. -/
theorem c4_amended (fuel : Nat) (raw : List Char) :
    annotate_remaining_cells fuel raw = .error .noValid ↔
      parseAnnsAux [] (lineFields raw) = .ok [] := by
  rw [annotate_remaining_cells]
  cases hp : parseAnnsAux [] (lineFields raw) with
  | error e =>
    have he := parseAnnsAux_error _ _ _ hp
    subst he
    constructor
    · intro h; exact absurd h (by simp)
    · intro h; exact absurd h (by simp)
  | ok anns =>
    have hne := parseAnnsAux_snd_ne_nil (lineFields raw) [] anns (by simp) hp
    rw [pipeline_noValid_iff, allBoxesOf_eq_nil_iff anns hne]
    simp

/-! ### Claims about line parsing (C10) -/

theorem list_eq_five (fs : List (List Char)) (h : fs.length = 5) :
    ∃ a b c d e0, fs = [a, b, c, d, e0] := by
  rcases fs with _ | ⟨a, _ | ⟨b, _ | ⟨c, _ | ⟨d, _ | ⟨e0, _ | ⟨f, r⟩⟩⟩⟩⟩⟩ <;>
    first
      | exact ⟨_, _, _, _, _, rfl⟩
      | simp at h

theorem parseLine_skip (fs : List (List Char)) (h : fs.length ≠ 5) :
    parseLine fs = .ok none := by
  rw [parseLine.eq_def, if_pos h]

theorem parseLine_not_skip (fs : List (List Char)) (h : fs.length = 5) :
    parseLine fs ≠ .ok none := by
  obtain ⟨f0, f1, f2, f3, f4, rfl⟩ := list_eq_five fs h
  cases hint : pyInt f0 <;>
    cases g1 : pyFloat f1 <;> cases g2 : pyFloat f2 <;>
    cases g3 : pyFloat f3 <;> cases g4 : pyFloat f4 <;>
    simp [parseLine, hint, g1, g2, g3, g4]

theorem parseLine_bad (fs : List (List Char)) (h5 : fs.length = 5)
    (hbad : pyInt (fs.getD 0 []) = none ∨
      ∃ i ∈ [1, 2, 3, 4], pyFloat (fs.getD i []) = none) :
    parseLine fs = .error .convError := by
  obtain ⟨f0, f1, f2, f3, f4, rfl⟩ := list_eq_five fs h5
  rcases hbad with hbad | ⟨i, hi, hbad⟩
  · simp [List.getD] at hbad
    simp [parseLine, hbad]
  · fin_cases hi <;>
      simp [List.getD] at hbad <;>
      cases hint : pyInt f0 <;>
      cases g1 : pyFloat f1 <;> cases g2 : pyFloat f2 <;>
      cases g3 : pyFloat f3 <;> cases g4 : pyFloat f4 <;>
      simp_all [parseLine]

theorem parseAnnsAux_bad (ls : List (List (List Char))) :
    ∀ anns : List (Int × List Box),
      (∃ fs ∈ ls, fs.length = 5 ∧
        (pyInt (fs.getD 0 []) = none ∨
          ∃ i ∈ [1, 2, 3, 4], pyFloat (fs.getD i []) = none)) →
      parseAnnsAux anns ls = .error .convError := by
  induction ls with
  | nil => intro anns h; simp at h
  | cons l rest ih =>
    intro anns h
    obtain ⟨fs, hfs, hbad⟩ := h
    rcases List.mem_cons.mp hfs with rfl | hfs
    · rw [parseAnnsAux, parseLine_bad fs hbad.1 hbad.2]
    · cases hl : parseLine l with
      | error e0 =>
        rw [parseAnnsAux, hl, parseLine_error l e0 hl]
      | ok o =>
        rw [parseAnnsAux, hl]
        cases o with
        | none => exact ih anns ⟨fs, hfs, hbad⟩
        | some p =>
          obtain ⟨cid, b⟩ := p
          exact ih _ ⟨fs, hfs, hbad⟩

/-- C10: a line whose whitespace-separated field count differs from 5 is
skipped silently (the accumulated annotations pass through unchanged); a
5-field line is never skipped; and a 5-field line whose first field is not
an integer literal, or one of whose four remaining fields is not a float
literal, makes the whole invocation fail with the uncaught conversion
error instead of being skipped. -/
theorem c10_line_handling :
    (∀ (anns : List (Int × List Box)) (ls : List (List (List Char)))
        (fs : List (List Char)),
      fs.length ≠ 5 → parseAnnsAux anns (fs :: ls) = parseAnnsAux anns ls)
    ∧ (∀ fs : List (List Char), fs.length = 5 → parseLine fs ≠ .ok none)
    ∧ (∀ (fuel : Nat) (raw : List Char),
        (∃ fs ∈ lineFields raw, fs.length = 5 ∧
          (pyInt (fs.getD 0 []) = none ∨
            ∃ i ∈ [1, 2, 3, 4], pyFloat (fs.getD i []) = none)) →
        annotate_remaining_cells fuel raw = .error .convError) := by
  refine ⟨?_, parseLine_not_skip, ?_⟩
  · intro anns ls fs h
    rw [parseAnnsAux, parseLine_skip fs h]
  · intro fuel raw h
    rw [annotate_remaining_cells, parseAnnsAux_bad _ _ h]

/-- C10 witness: the 3-field line `"1 2 3"` is skipped silently, and an
input containing the 5-field line `"a 1 2 3 4"` (non-integer first field)
makes the whole invocation fail with the conversion error. -/
theorem c10_witness :
    parseAnnsAux [] [["1".data, "2".data, "3".data]] = parseAnnsAux [] []
    ∧ annotate_remaining_cells 1 ("a 1 2 3 4").data = .error .convError :=
  ⟨c10_line_handling.1 [] [] ["1".data, "2".data, "3".data] (by decide),
   c10_line_handling.2.2 1 ("a 1 2 3 4").data
     ⟨[['a'], ['1'], ['2'], ['3'], ['4']],
      by decide, by decide, Or.inl (by decide)⟩⟩
